import Mathlib

/-!
Verification of the chunked multipart upload orchestrator
(`upload.service.ts`, `modules.component.ts`, `file-upload.service.ts`).

The TypeScript source is shallowly embedded: byte counts are `Nat`
(all realistic sizes are below 2^53, where JS float arithmetic on
integers is exact), the one code path that manipulates possibly
negative / zero part sizes is embedded over `Int` with the JS
`Infinity`/`NaN` behaviour made explicit, remote HTTP calls are
modelled by scripts of responses consumed in order, and the
`async` orchestration loops become structural recursion over those
scripts, emitting a trace of the remote calls they issue.
-/

/-- One part produced by `UploadService.splitFileIntoChunks`:
`partNumber` is 1-based, the blob handed to `file.slice(start, end)` is
represented by its byte range `[start, end_)`. -/
structure ChunkPart where
  partNumber : Nat
  start : Nat
  end_ : Nat
deriving DecidableEq, Repr

/-- Embedding of `UploadService.splitFileIntoChunks` (upload.service.ts,
lines 34-49) for the non-degenerate case of a positive part size:
`totalChunks = Math.ceil(file.size / partSizeBytes)` is the Nat ceiling
division `(fileSize + partSizeBytes - 1) / partSizeBytes`, and chunk `i`
covers `[i * partSizeBytes, min (i * partSizeBytes + partSizeBytes) fileSize)`. -/
def splitFileIntoChunks (fileSize partSizeBytes : Nat) : List ChunkPart :=
  (List.range ((fileSize + partSizeBytes - 1) / partSizeBytes)).map fun i =>
    { partNumber := i + 1
      start := i * partSizeBytes
      end_ := min (i * partSizeBytes + partSizeBytes) fileSize }

/-- A part range as computed with JS number semantics over `Int`
(used to embed the behaviour of `splitFileIntoChunks` on non-positive
part sizes). -/
structure ChunkPartZ where
  partNumber : Nat
  start : Int
  end_ : Int
deriving DecidableEq, Repr

/-- Outcome of running `splitFileIntoChunks` under JS semantics:
either the returned list of parts, or non-termination of the `for` loop. -/
inductive SplitOutcome where
  | parts (l : List ChunkPartZ)
  | diverges
deriving DecidableEq, Repr

/-- Mathematical ceiling of `a / b` (with the JS-irrelevant convention
`b = 0 → 0`, that case being guarded separately in `splitFileIntoChunksJS`). -/
def ceilDivInt (a b : Int) : Int := ⌈(a : ℚ) / (b : ℚ)⌉

/-- Embedding of `UploadService.splitFileIntoChunks` over `Int` with JS
number semantics. `Math.ceil(file.size / partSizeBytes)`:
for `fileSize > 0` and `partSizeBytes = 0` the quotient is `Infinity`, so
the loop bound is infinite and the loop never terminates; for
`fileSize = 0` and `partSizeBytes = 0` the bound is `NaN`, the comparison
`i < NaN` is false and the loop body never runs; otherwise the bound is
the exact ceiling of the quotient, negative or zero bounds running the
loop zero times. -/
def splitFileIntoChunksJS (fileSize partSize : Int) : SplitOutcome :=
  if 0 < fileSize ∧ partSize = 0 then SplitOutcome.diverges
  else
    SplitOutcome.parts
      ((List.range (ceilDivInt fileSize partSize).toNat).map fun i =>
        { partNumber := i + 1
          start := (i : Int) * partSize
          end_ := min ((i : Int) * partSize + partSize) fileSize })

section ChunkerLemmas

/-- `fileSize ≤ totalChunks * partSize`: the chunks reach the end of the file. -/
theorem ceil_div_mul_ge (fs p : Nat) (hp : 0 < p) : fs ≤ ((fs + p - 1) / p) * p := by
  by_contra hlt
  push_neg at hlt
  have h1 : ((fs + p - 1) / p) * p + p ≤ fs + p - 1 := by
    generalize ((fs + p - 1) / p) * p = m at hlt ⊢
    omega
  have h2 : (((fs + p - 1) / p) + 1) * p ≤ fs + p - 1 := by
    calc (((fs + p - 1) / p) + 1) * p = ((fs + p - 1) / p) * p + p := by ring
    _ ≤ fs + p - 1 := h1
  have h3 : ((fs + p - 1) / p) + 1 ≤ (fs + p - 1) / p :=
    (Nat.le_div_iff_mul_le hp).mpr h2
  omega

/-- A positive file yields at least one chunk. -/
theorem ceil_div_pos (fs p : Nat) (hf : 0 < fs) (hp : 0 < p) :
    0 < (fs + p - 1) / p := by
  have : 1 * p ≤ fs + p - 1 := by omega
  have := (Nat.le_div_iff_mul_le hp).mpr this
  omega

/-- All chunks except possibly the last end strictly inside the file:
`(totalChunks - 1) * partSize < fileSize`. -/
theorem ceil_div_pred_mul_lt (fs p : Nat) (hf : 0 < fs) (hp : 0 < p) :
    (((fs + p - 1) / p) - 1) * p < fs := by
  by_contra hle
  push_neg at hle
  have hn1 : 0 < (fs + p - 1) / p := ceil_div_pos fs p hf hp
  obtain ⟨m, hm⟩ : ∃ m, (fs + p - 1) / p = m + 1 := ⟨(fs + p - 1) / p - 1, by omega⟩
  rw [hm] at hle
  simp only [Nat.add_sub_cancel] at hle
  have h2 : fs + p - 1 < (m + 1) * p := by
    have : (m + 1) * p = m * p + p := by ring
    omega
  have h3 : (fs + p - 1) / p < m + 1 := (Nat.div_lt_iff_lt_mul hp).mpr h2
  omega

end ChunkerLemmas

/-- C2: for every `fileSize > 0` and `partSize > 0`,
`splitFileIntoChunks` produces exactly `ceil(fileSize/partSize)` parts
with 1-based contiguous unique part numbers, byte ranges
`[ (n-1)*partSize, min(n*partSize, fileSize) )` that are contiguous,
non-overlapping and cover `[0, fileSize)`, the last part's length being
`fileSize - (totalParts-1)*partSize`; and the output is a pure function
of `(fileSize, partSize)`. -/
theorem splitFileIntoChunks_spec (fileSize partSizeBytes : Nat)
    (hf : 0 < fileSize) (hp : 0 < partSizeBytes)
    (cs : List ChunkPart) (hcs : cs = splitFileIntoChunks fileSize partSizeBytes) :
    cs.length = (fileSize + partSizeBytes - 1) / partSizeBytes
    ∧ 0 < cs.length
    ∧ (∀ i, (h : i < cs.length) →
        (cs[i]).partNumber = i + 1
        ∧ (cs[i]).start = i * partSizeBytes
        ∧ (cs[i]).end_ = min (i * partSizeBytes + partSizeBytes) fileSize
        ∧ (cs[i]).start < (cs[i]).end_)
    ∧ (∀ i, (h : i + 1 < cs.length) → (h' : i < cs.length) →
        (cs[i + 1]).start = (cs[i]).end_)
    ∧ (∀ i j, (hi : i < cs.length) → (hj : j < cs.length) → i < j →
        (cs[i]).end_ ≤ (cs[j]).start)
    ∧ (∀ i j, (hi : i < cs.length) → (hj : j < cs.length) →
        (cs[i]).partNumber = (cs[j]).partNumber → i = j)
    ∧ ((h0 : 0 < cs.length) → (cs[0]).start = 0)
    ∧ ((hl : cs.length - 1 < cs.length) →
        (cs[cs.length - 1]).end_ = fileSize
        ∧ (cs[cs.length - 1]).end_ - (cs[cs.length - 1]).start
            = fileSize - (cs.length - 1) * partSizeBytes)
    ∧ splitFileIntoChunks fileSize partSizeBytes
        = splitFileIntoChunks fileSize partSizeBytes := by
  subst hcs
  have hlen : (splitFileIntoChunks fileSize partSizeBytes).length
      = (fileSize + partSizeBytes - 1) / partSizeBytes := by
    simp [splitFileIntoChunks]
  have hget : ∀ i, (h : i < (splitFileIntoChunks fileSize partSizeBytes).length) →
      (splitFileIntoChunks fileSize partSizeBytes)[i]
        = { partNumber := i + 1
            start := i * partSizeBytes
            end_ := min (i * partSizeBytes + partSizeBytes) fileSize } := by
    intro i h
    simp [splitFileIntoChunks]
  have hnonempty : 0 < (splitFileIntoChunks fileSize partSizeBytes).length := by
    rw [hlen]; exact ceil_div_pos fileSize partSizeBytes hf hp
  refine ⟨hlen, hnonempty, ?_, ?_, ?_, ?_, ?_, ?_, rfl⟩
  · intro i h
    rw [hget i h]
    refine ⟨rfl, rfl, rfl, ?_⟩
    have hi : i < (fileSize + partSizeBytes - 1) / partSizeBytes := by
      rw [← hlen]; exact h
    have h1 : i * partSizeBytes
        ≤ (((fileSize + partSizeBytes - 1) / partSizeBytes) - 1) * partSizeBytes :=
      Nat.mul_le_mul_right _ (by omega)
    have h2 := ceil_div_pred_mul_lt fileSize partSizeBytes hf hp
    simp only [lt_min_iff]
    constructor
    · omega
    · omega
  · intro i h h'
    rw [hget _ h, hget _ h']
    show (i + 1) * partSizeBytes = min (i * partSizeBytes + partSizeBytes) fileSize
    have hi1 : i + 1 < (fileSize + partSizeBytes - 1) / partSizeBytes := by
      rw [← hlen]; exact h
    have h1 : (i + 1) * partSizeBytes
        ≤ (((fileSize + partSizeBytes - 1) / partSizeBytes) - 1) * partSizeBytes :=
      Nat.mul_le_mul_right _ (by omega)
    have h2 := ceil_div_pred_mul_lt fileSize partSizeBytes hf hp
    have h3 : (i + 1) * partSizeBytes < fileSize := by omega
    have h4 : (i + 1) * partSizeBytes = i * partSizeBytes + partSizeBytes := by ring
    omega
  · intro i j hi hj hij
    rw [hget _ hi, hget _ hj]
    show min (i * partSizeBytes + partSizeBytes) fileSize ≤ j * partSizeBytes
    have h1 : i * partSizeBytes + partSizeBytes = (i + 1) * partSizeBytes := by ring
    have h2 : (i + 1) * partSizeBytes ≤ j * partSizeBytes :=
      Nat.mul_le_mul_right _ (by omega)
    calc min (i * partSizeBytes + partSizeBytes) fileSize
        ≤ i * partSizeBytes + partSizeBytes := min_le_left _ _
      _ = (i + 1) * partSizeBytes := by ring
      _ ≤ j * partSizeBytes := h2
  · intro i j hi hj hpn
    rw [hget _ hi, hget _ hj] at hpn
    simpa using hpn
  · intro h0
    rw [hget 0 h0]
    simp
  · intro hl
    rw [hget _ hl]
    have hlast : ((fileSize + partSizeBytes - 1) / partSizeBytes - 1) * partSizeBytes
        < fileSize := ceil_div_pred_mul_lt fileSize partSizeBytes hf hp
    have hcover : fileSize ≤ ((fileSize + partSizeBytes - 1) / partSizeBytes) * partSizeBytes :=
      ceil_div_mul_ge fileSize partSizeBytes hp
    have hn1 : 0 < (fileSize + partSizeBytes - 1) / partSizeBytes :=
      ceil_div_pos fileSize partSizeBytes hf hp
    have hlen1 : (splitFileIntoChunks fileSize partSizeBytes).length - 1
        = (fileSize + partSizeBytes - 1) / partSizeBytes - 1 := by omega
    rw [hlen1]
    obtain ⟨m, hm⟩ : ∃ m, (fileSize + partSizeBytes - 1) / partSizeBytes = m + 1 :=
      ⟨(fileSize + partSizeBytes - 1) / partSizeBytes - 1, by omega⟩
    rw [hm] at hlast hcover ⊢
    simp only [Nat.add_sub_cancel] at hlast ⊢
    have hmul : (m + 1) * partSizeBytes = m * partSizeBytes + partSizeBytes := by ring
    constructor
    · simp only [min_eq_right_iff.mpr (by omega : fileSize ≤ m * partSizeBytes + partSizeBytes)]
    · have : min (m * partSizeBytes + partSizeBytes) fileSize = fileSize := by omega
      rw [this]

/-- Witness for C2 at `fileSize = 5`, `partSize = 2`: three chunks. -/
theorem splitFileIntoChunks_spec_witness :
    (splitFileIntoChunks 5 2).length = 3 :=
  ((splitFileIntoChunks_spec 5 2 (by decide) (by decide)
    (splitFileIntoChunks 5 2) rfl).1).trans (by decide)

/-- C10: a zero-byte file yields zero parts for every positive part size,
since `Math.ceil(0 / partSize) = 0`. -/
theorem splitFileIntoChunks_zero_file (partSizeBytes : Nat) (hp : 0 < partSizeBytes) :
    splitFileIntoChunks 0 partSizeBytes = [] := by
  unfold splitFileIntoChunks
  have h : (0 + partSizeBytes - 1) / partSizeBytes = 0 :=
    Nat.div_eq_of_lt (by omega)
  rw [h]
  simp

/-- Witness for C10 at `partSize = 5`. -/
theorem splitFileIntoChunks_zero_file_witness :
    splitFileIntoChunks 0 5 = [] :=
  splitFileIntoChunks_zero_file 5 (by decide)

/-- Counterexample for C7: at `fileSize = 5`, `partSize = -1` the chunker
returns a (empty) part sequence normally, raising no error of any kind;
and at `fileSize = 5`, `partSize = 0` the loop diverges.  There is no
`InvalidConfiguration` failure path in the code. -/
theorem splitFileIntoChunksJS_no_error_cx :
    splitFileIntoChunksJS 5 (-1) = SplitOutcome.parts []
    ∧ splitFileIntoChunksJS 5 0 = SplitOutcome.diverges := by
  constructor
  · show (if (0 : Int) < 5 ∧ (-1 : Int) = 0 then SplitOutcome.diverges else _) = _
    rw [if_neg (by simp)]
    have h : ceilDivInt 5 (-1) = -5 := by
      unfold ceilDivInt
      rw [show ((5 : Int) : ℚ) / (((-1 : Int) : ℚ)) = ((-5 : Int) : ℚ) by norm_num]
      exact Int.ceil_intCast (-5)
    rw [h]
    rfl
  · rfl

/-- C7 amended: for `fileSize ≥ 0`, a negative `partSize` makes
`splitFileIntoChunks` return the empty part sequence (no error is
raised); `partSize = 0` with a positive `fileSize` makes the loop run
forever; `partSize = 0 = fileSize` returns the empty sequence.  The code
has no `InvalidConfiguration` error. -/
theorem splitFileIntoChunksJS_nonpositive (fileSize partSize : Int)
    (hf : 0 ≤ fileSize) (hp : partSize ≤ 0) :
    (partSize < 0 → splitFileIntoChunksJS fileSize partSize = SplitOutcome.parts [])
    ∧ (partSize = 0 → 0 < fileSize →
        splitFileIntoChunksJS fileSize partSize = SplitOutcome.diverges)
    ∧ (partSize = 0 → fileSize = 0 →
        splitFileIntoChunksJS fileSize partSize = SplitOutcome.parts []) := by
  refine ⟨?_, ?_, ?_⟩
  · intro hneg
    unfold splitFileIntoChunksJS
    rw [if_neg (by intro h; omega)]
    have hq : ((fileSize : ℚ) / (partSize : ℚ)) ≤ 0 :=
      div_nonpos_of_nonneg_of_nonpos (by exact_mod_cast hf) (by exact_mod_cast hp)
    have hc : ceilDivInt fileSize partSize ≤ 0 := Int.ceil_le.mpr (by exact_mod_cast hq)
    have ht : (ceilDivInt fileSize partSize).toNat = 0 := Int.toNat_of_nonpos hc
    rw [ht]
    simp
  · intro h0 hpos
    unfold splitFileIntoChunksJS
    rw [if_pos ⟨hpos, h0⟩]
  · intro h0 hz
    unfold splitFileIntoChunksJS
    rw [if_neg (by intro h; omega)]
    subst h0 hz
    have hc : ceilDivInt 0 0 = 0 := by
      unfold ceilDivInt
      norm_num
    rw [hc]
    simp

/-- Witness for the amended C7 at `fileSize = 7`, `partSize = -3`. -/
theorem splitFileIntoChunksJS_nonpositive_witness :
    splitFileIntoChunksJS 7 (-3) = SplitOutcome.parts [] :=
  (splitFileIntoChunksJS_nonpositive 7 (-3) (by decide) (by decide)).1 (by decide)

/-- A character matched by `.` in a JS regex without the `s` flag:
anything but a line terminator. -/
def jsRegexDotChar (c : Char) : Bool :=
  c != '\n' && c != '\r' && c != ' ' && c != ' '

/-- Whether the JS regex `/^"(.*)"$/` matches the string (modelled as a
list of characters): at least two characters, the first and last are
`"`, and everything in between is matched by `.`. -/
def etagQuotedMatch (s : List Char) : Bool :=
  decide (2 ≤ s.length) && s.head? == some '"' && s.getLast? == some '"'
    && ((s.drop 1).dropLast.all jsRegexDotChar)

/-- Embedding of `etag.replace(/^"(.*)"$/, '$1')`
(file-upload.service.ts `uploadPart`): when the whole string is wrapped
in one pair of quotes, that pair is stripped; otherwise the string is
returned unchanged. -/
def stripETagQuotes (s : List Char) : List Char :=
  if etagQuotedMatch s then (s.drop 1).dropLast else s

/-- Transport-level outcome of the `PUT` issued by
`FileUploadService.uploadPart`: `ok h` is an HTTP success whose `ETag`
response header is `h` (`none` when the header is absent), `err` is a
transport/HTTP failure, on which the observable errors without running
the `map`. -/
inductive TransportResult where
  | ok (etagHeader : Option (List Char))
  | err
deriving DecidableEq

/-- Result of `FileUploadService.uploadPart` as seen by its caller. -/
inductive UploadPartOutcome where
  | receipt (etag : List Char)
  | error (msg : String)
deriving DecidableEq

/-- Embedding of `FileUploadService.uploadPart` (part_003, lines 166-179):
on transport failure the call errors; on transport success,
`response.headers.get('ETag')` is read and `if (!etag) throw` rejects a
missing header (and, by JS string falsiness, an empty-string header);
otherwise the quote-normalised tag is returned. -/
def uploadPartResult : TransportResult → UploadPartOutcome
  | TransportResult.err => UploadPartOutcome.error "transport"
  | TransportResult.ok none => UploadPartOutcome.error "No ETag found in response headers"
  | TransportResult.ok (some s) =>
      if s = [] then UploadPartOutcome.error "No ETag found in response headers"
      else UploadPartOutcome.receipt (stripETagQuotes s)

/-- C5: `uploadPart` succeeds iff the transport call succeeds and the
response carries a completion token (a present, nonempty `ETag`); a
token wrapped in quotes is normalised by stripping exactly that one
leading/trailing quote pair, and an unquoted token is returned
unchanged. -/
theorem uploadPart_token_spec (t s : List Char)
    (ht : t.all jsRegexDotChar = true) (hs : s ≠ [])
    (hq : etagQuotedMatch s = false) :
    (∀ r : TransportResult,
      (∃ e, uploadPartResult r = UploadPartOutcome.receipt e)
        ↔ ∃ u, r = TransportResult.ok (some u) ∧ u ≠ [])
    ∧ uploadPartResult (TransportResult.ok (some ('"' :: (t ++ ['"']))))
        = UploadPartOutcome.receipt t
    ∧ uploadPartResult (TransportResult.ok (some s)) = UploadPartOutcome.receipt s := by
  refine ⟨?_, ?_, ?_⟩
  · intro r
    constructor
    · rintro ⟨e, he⟩
      match r with
      | TransportResult.err => simp [uploadPartResult] at he
      | TransportResult.ok none => simp [uploadPartResult] at he
      | TransportResult.ok (some u) =>
        refine ⟨u, rfl, ?_⟩
        intro hu
        rw [hu] at he
        simp [uploadPartResult] at he
    · rintro ⟨u, rfl, hu⟩
      simp only [uploadPartResult, if_neg hu]
      exact ⟨stripETagQuotes u, rfl⟩
  · have hne : ('"' :: (t ++ ['"'])) ≠ ([] : List Char) := by simp
    have hmatch : etagQuotedMatch ('"' :: (t ++ ['"'])) = true := by
      unfold etagQuotedMatch
      simp only [Bool.and_eq_true, beq_iff_eq]
      refine ⟨⟨⟨?_, ?_⟩, ?_⟩, ?_⟩
      · simp
      · rfl
      · rw [show ('"' :: (t ++ ['"'])) = ('"' :: t) ++ ['"'] by simp]
        exact List.getLast?_concat _
      · have hdrop : ('"' :: (t ++ ['"'])).drop 1 = t ++ ['"'] := rfl
        rw [hdrop, List.dropLast_concat]
        exact ht
    have hstrip : stripETagQuotes ('"' :: (t ++ ['"'])) = t := by
      unfold stripETagQuotes
      rw [if_pos hmatch]
      have hdrop : ('"' :: (t ++ ['"'])).drop 1 = t ++ ['"'] := rfl
      rw [hdrop, List.dropLast_concat]
    simp only [uploadPartResult, if_neg hne, hstrip]
  · have hstrip : stripETagQuotes s = s := by
      unfold stripETagQuotes
      rw [hq]
      simp
    simp only [uploadPartResult, if_neg hs, hstrip]

/-- Witness for C5: the quoted token `"ab"` is normalised to `ab`. -/
theorem uploadPart_token_spec_witness :
    uploadPartResult (TransportResult.ok (some ('"' :: (['a', 'b'] ++ ['"']))))
      = UploadPartOutcome.receipt ['a', 'b'] :=
  (uploadPart_token_spec ['a', 'b'] ['x'] (by decide) (by decide) (by decide)).2.1

/-- A JS number as consumed by the progress formatter: either a
non-finite value (`NaN`, `Infinity`, `-Infinity`) or a finite value,
represented exactly as a rational. -/
inductive JSNumber where
  | nonFinite
  | val (q : ℚ)
deriving DecidableEq

/-- JS division as used for `remainingSize / bytesPerSecond`: dividing
by zero yields a non-finite value (`Infinity`, `-Infinity` or `NaN`),
otherwise the exact quotient. -/
def jsDiv (a b : ℚ) : JSNumber :=
  if b = 0 then JSNumber.nonFinite else JSNumber.val (a / b)

/-- JS truncation toward zero (the rounding used by the `%` operator). -/
def jsTrunc (q : ℚ) : Int := if q < 0 then -⌊-q⌋ else ⌊q⌋

/-- The JS remainder operator `a % b`: `a - b * trunc(a / b)`. -/
def jsMod (a b : ℚ) : ℚ := a - b * (jsTrunc (a / b) : ℚ)

/-- Embedding of `UploadService.formatTimeRemaining` (upload.service.ts,
lines 211-225): non-finite or negative input renders as
`"Calculating..."`; otherwise hours, minutes and seconds are extracted
with `Math.floor` and `%` and rendered as `Hh Mm`, `Mm Ss` or `Ss`. -/
def formatTimeRemaining : JSNumber → String
  | JSNumber.nonFinite => "Calculating..."
  | JSNumber.val s =>
    if s < 0 then "Calculating..."
    else
      let hours : Int := ⌊s / 3600⌋
      let minutes : Int := ⌊(jsMod s 3600) / 60⌋
      let secs : Int := ⌊jsMod s 60⌋
      if 0 < hours then toString hours ++ "h " ++ toString minutes ++ "m"
      else if 0 < minutes then toString minutes ++ "m " ++ toString secs ++ "s"
      else toString secs ++ "s"

/-- For `0 ≤ s < b`, the JS remainder `s % b` is `s` itself. -/
theorem jsMod_of_lt (s b : ℚ) (hs : 0 ≤ s) (hb : 0 < b) (hlt : s < b) :
    jsMod s b = s := by
  have hq0 : 0 ≤ s / b := div_nonneg hs hb.le
  have hq1 : s / b < 1 := (div_lt_one hb).mpr hlt
  have hfloor : ⌊s / b⌋ = 0 := by
    rw [Int.floor_eq_zero_iff]
    exact ⟨hq0, hq1⟩
  unfold jsMod jsTrunc
  rw [if_neg (not_lt.mpr hq0), hfloor]
  push_cast
  ring

/-- C8: the time formatter renders non-finite or negative seconds
(covering a zero speed, whose remaining/speed quotient is non-finite) as
`"Calculating..."`; otherwise it renders hours and minutes when the
duration is at least one hour, minutes and seconds when at least one
minute, and seconds only below one minute. -/
theorem formatTimeRemaining_spec (s remaining : ℚ) (hs : 0 ≤ s) :
    formatTimeRemaining JSNumber.nonFinite = "Calculating..."
    ∧ (∀ q : ℚ, q < 0 → formatTimeRemaining (JSNumber.val q) = "Calculating...")
    ∧ formatTimeRemaining (jsDiv remaining 0) = "Calculating..."
    ∧ (3600 ≤ s → formatTimeRemaining (JSNumber.val s)
        = toString ⌊s / 3600⌋ ++ "h " ++ toString ⌊(jsMod s 3600) / 60⌋ ++ "m")
    ∧ (60 ≤ s → s < 3600 → formatTimeRemaining (JSNumber.val s)
        = toString ⌊s / 60⌋ ++ "m " ++ toString ⌊jsMod s 60⌋ ++ "s")
    ∧ (s < 60 → formatTimeRemaining (JSNumber.val s) = toString ⌊s⌋ ++ "s") := by
  refine ⟨rfl, ?_, ?_, ?_, ?_, ?_⟩
  · intro q hq
    simp only [formatTimeRemaining]
    rw [if_pos hq]
  · unfold jsDiv
    rw [if_pos rfl]
    rfl
  · intro hge
    have hhours : 0 < ⌊s / 3600⌋ := by
      have : (1 : ℚ) ≤ s / 3600 := by
        rw [le_div_iff₀ (by norm_num : (0:ℚ) < 3600)]
        linarith
      have := Int.le_floor.mpr (by push_cast; linarith : ((1:ℤ) : ℚ) ≤ s / 3600)
      omega
    simp only [formatTimeRemaining]
    rw [if_neg (not_lt.mpr hs)]
    simp only [if_pos hhours]
  · intro hge hlt
    have hhours : ⌊s / 3600⌋ = 0 := by
      rw [Int.floor_eq_zero_iff]
      exact ⟨div_nonneg hs (by norm_num), (div_lt_one (by norm_num)).mpr hlt⟩
    have hmod : jsMod s 3600 = s := jsMod_of_lt s 3600 hs (by norm_num) hlt
    have hminutes : 0 < ⌊(jsMod s 3600) / 60⌋ := by
      rw [hmod]
      have := Int.le_floor.mpr (by
        rw [le_div_iff₀ (by norm_num : (0:ℚ) < 60)]
        push_cast
        linarith : ((1:ℤ) : ℚ) ≤ s / 60)
      omega
    simp only [formatTimeRemaining]
    rw [if_neg (not_lt.mpr hs)]
    rw [hmod] at hminutes
    simp only [if_neg (by omega : ¬ (0 : Int) < ⌊s / 3600⌋), hmod]
    rw [if_pos hminutes]
  · intro hlt
    have hhours : ⌊s / 3600⌋ = 0 := by
      rw [Int.floor_eq_zero_iff]
      refine ⟨div_nonneg hs (by norm_num), (div_lt_one (by norm_num)).mpr (by linarith)⟩
    have hmod3600 : jsMod s 3600 = s := jsMod_of_lt s 3600 hs (by norm_num) (by linarith)
    have hminutes : ⌊(jsMod s 3600) / 60⌋ = 0 := by
      rw [hmod3600, Int.floor_eq_zero_iff]
      exact ⟨div_nonneg hs (by norm_num), (div_lt_one (by norm_num)).mpr hlt⟩
    have hmod60 : jsMod s 60 = s := jsMod_of_lt s 60 hs (by norm_num) hlt
    simp only [formatTimeRemaining]
    rw [if_neg (not_lt.mpr hs)]
    simp only [if_neg (by omega : ¬ (0 : Int) < ⌊s / 3600⌋),
      if_neg (by omega : ¬ (0 : Int) < ⌊(jsMod s 3600) / 60⌋), hmod60]

/-- Witness for C8: 75 seconds render as `"1m 15s"`. -/
theorem formatTimeRemaining_spec_witness :
    formatTimeRemaining (JSNumber.val 75) = "1m 15s" := by
  have h := (formatTimeRemaining_spec 75 500 (by norm_num)).2.2.2.2.1
    (by norm_num) (by norm_num)
  rw [h]
  norm_num [jsMod, jsTrunc]
  decide

/-- A confirmed part receipt `{partNumber, etag}`. -/
structure Receipt where
  partNumber : Nat
  etag : String
deriving DecidableEq, Repr

/-- One `{partNumber, url}` pair of a wave's presigned-URL batch. -/
structure PresignedPart where
  partNumber : Nat
  url : String
deriving DecidableEq, Repr

/-- The observable behaviour of one part's retry loop inside
`ModulesComponent.uploadBatch`: the etag obtained (if any attempt
succeeded), how many `PUT` attempts were made, and the backoff delays
(in milliseconds) awaited before each retry. -/
structure PartRun where
  partNumber : Nat
  result : Option String
  attemptsMade : Nat
  delays : List Nat
deriving DecidableEq, Repr

/-- The component's `uploadState` object. -/
structure USModel where
  uploadId : Option String
  fileName : String
  fileSize : Nat
  uploadedSize : Nat
  speed : String
  timeRemaining : String
deriving DecidableEq, Repr

/-- The `progress` object of a batch response. -/
structure ProgressInfo where
  completedParts : Nat
  totalParts : Nat
  percentComplete : ℚ
  isComplete : Bool
deriving DecidableEq, Repr

/-- One response of `POST /uploads/{id}/presigned-urls/batch`. -/
structure BatchResp where
  progress : ProgressInfo
  presignedUrls : List PresignedPart
deriving DecidableEq, Repr

/-- The part of an initiate response the orchestrators read. -/
structure InitResp where
  uploadId : String
  partSizeBytes : Nat
deriving DecidableEq, Repr

/-- The selected `File` (name, byte size, MIME type). -/
structure FileModel where
  name : String
  size : Nat
  mimeType : String
deriving DecidableEq, Repr

/-- A remote call issued by the orchestrator, in issue order. -/
inductive RCall where
  | initiate (fileName : String) (fileSize : Nat)
  | batchReq (uploadId : String) (receipts : List Receipt)
  | putPart (partNumber : Nat)
  | completeReq (uploadId : String) (receipts : List Receipt)
  | abortReq (uploadId : String)
deriving DecidableEq, Repr

/-- The mutable fields of `ModulesComponent`. -/
structure CmpState where
  uploading : Bool
  progress : ℚ
  errorMessage : Option String
  isPaused : Bool
  selectedFile : Option FileModel
  uploadState : Option USModel
deriving DecidableEq, Repr

/-- Embedding of the inner retry loop of `ModulesComponent.uploadBatch`
(`while (retryCount < maxRetries && !success)`, `maxRetries = 3`):
`att k` is the outcome of the `PUT` attempt with `retryCount = k`
(`some etag` on success).  Returns the result, the number of attempts
made, and the list of backoff delays
`Math.min(1000 * 2 ** retryCount, 10000)` awaited between attempts.
`fuel` is `maxRetries - retryCount`, so the loop is run with
`attemptPart att 3 0`. -/
def attemptPart (att : Nat → Option String) : Nat → Nat → Option String × Nat × List Nat
  | 0, _ => (none, 0, [])
  | fuel + 1, retryCount =>
    match att retryCount with
    | some e => (some e, 1, [])
    | none =>
      let rest := attemptPart att fuel (retryCount + 1)
      (rest.1, rest.2.1 + 1,
        (if retryCount + 1 < 3 then [min (1000 * 2 ^ (retryCount + 1)) 10000] else [])
          ++ rest.2.2)

/-- Embedding of `ModulesComponent.uploadBatch` (upload.service.ts,
lines 259-322): the presigned URLs are processed sequentially; each
part runs the bounded retry loop; a successful part pushes
`{partNumber, etag}` onto `currentBatchETags` and, when `uploadState`
is set, assigns
`uploadState.uploadedSize = Math.min(currentBatchETags.length * partSizeBytes, fileSize)`.
`cnt` is `currentBatchETags.length` so far; the returned tuple is
(receipts of this batch, per-part runs, the successive values assigned
to `uploadedSize`, the final `uploadState`). -/
def cmpUploadBatch (partSizeBytes : Nat) (att : Nat → Nat → Option String) :
    List PresignedPart → Nat → Option USModel →
    List Receipt × List PartRun × List Nat × Option USModel
  | [], _, us => ([], [], [], us)
  | pp :: rest, cnt, us =>
    let a := attemptPart (att pp.partNumber) 3 0
    match a.1 with
    | some e =>
      match us with
      | some st =>
        let newSize := min ((cnt + 1) * partSizeBytes) st.fileSize
        let st' : USModel := { st with uploadedSize := newSize }
        let r := cmpUploadBatch partSizeBytes att rest (cnt + 1) (some st')
        (⟨pp.partNumber, e⟩ :: r.1, ⟨pp.partNumber, a.1, a.2.1, a.2.2⟩ :: r.2.1,
          newSize :: r.2.2.1, r.2.2.2)
      | none =>
        let r := cmpUploadBatch partSizeBytes att rest (cnt + 1) none
        (⟨pp.partNumber, e⟩ :: r.1, ⟨pp.partNumber, a.1, a.2.1, a.2.2⟩ :: r.2.1,
          r.2.2.1, r.2.2.2)
    | none =>
      let r := cmpUploadBatch partSizeBytes att rest cnt us
      (r.1, ⟨pp.partNumber, a.1, a.2.1, a.2.2⟩ :: r.2.1, r.2.2.1, r.2.2.2)

/-- The `PUT` calls issued by a batch, one per attempt, in order. -/
def putsOfRuns (runs : List PartRun) : List RCall :=
  (runs.map fun r => List.replicate r.attemptsMade (RCall.putPart r.partNumber)).flatten

/-- What one complete run of the component's wave loop produced. -/
structure LoopResult where
  allETags : List Receipt
  waves : List (List Receipt)
  calls : List RCall
  sizeUpdates : List Nat
  finalUS : Option USModel
  percent : ℚ
deriving DecidableEq, Repr

/-- Embedding of the wave loop of `ModulesComponent.uploadFile`
(upload.service.ts, lines 373-411), entered after the initial
`getNextBatchUrls(uploadId, [])` call returned `prog`: upload the
current batch, append its receipts to `allUploadedETags`, request the
next batch with the cumulative list, and stop when the freshly fetched
response reports `isComplete`.  `script` holds the remaining batch
responses in order; `att w` gives wave `w`'s per-part attempt outcomes;
`none` means the script was exhausted before completion (the run is
still in flight).  The pause flag is not flipped during the run. -/
def cmpLoop (uploadId : String) (partSizeBytes : Nat)
    (att : Nat → Nat → Nat → Option String) :
    Nat → List BatchResp → List Receipt → BatchResp → Option USModel →
    Option LoopResult
  | w, script, all, prog, us =>
    let b := cmpUploadBatch partSizeBytes (att w) prog.presignedUrls 0 us
    let all' := all ++ b.1
    let calls := putsOfRuns b.2.1 ++ [RCall.batchReq uploadId all']
    match script with
    | [] => none
    | r1 :: rest =>
      if r1.progress.isComplete then
        some ⟨all', [b.1], calls, b.2.2.1, b.2.2.2, r1.progress.percentComplete⟩
      else
        match cmpLoop uploadId partSizeBytes att (w + 1) rest all' r1 b.2.2.2 with
        | none => none
        | some lr => some ⟨lr.allETags, b.1 :: lr.waves, calls ++ lr.calls,
            b.2.2.1 ++ lr.sizeUpdates, lr.finalUS, lr.percent⟩

/-- Embedding of `ModulesComponent.resetUploadState` (upload.service.ts,
lines 490-497): every field back to its initial value. -/
def resetUploadStateModel : CmpState :=
  { uploading := false, progress := 0, errorMessage := none, isPaused := false,
    selectedFile := none, uploadState := none }

/-- What a successful `ModulesComponent.uploadFile` run produced. -/
structure RunResult where
  finalState : CmpState
  calls : List RCall
  sizeUpdates : List Nat
  waves : List (List Receipt)
  completeArg : List Receipt
  fileUrl : String
deriving DecidableEq, Repr

/-- Embedding of `ModulesComponent.uploadFile` (upload.service.ts,
lines 324-451), success path: bail out if paused, initiate (receiving
`init`), create `uploadState` if absent and store the new `uploadId` in
it, request the first batch with no ETags, run the wave loop, then call
`completeUpload(uploadId, allUploadedETags)` and reset local state.
`fileUrlOf` maps the complete request to the remote's `fileUrl`. -/
def cmpUploadFile (st : CmpState) (file : FileModel)
    (init : InitResp) (script : List BatchResp)
    (att : Nat → Nat → Nat → Option String)
    (fileUrlOf : List Receipt → String) : Option RunResult :=
  if st.isPaused then none
  else
    let us0 : USModel :=
      match st.uploadState with
      | some s => { s with uploadId := some init.uploadId }
      | none => { uploadId := some init.uploadId, fileName := file.name,
                  fileSize := file.size, uploadedSize := 0, speed := "0 KB",
                  timeRemaining := "Calculating..." }
    match script with
    | [] => none
    | r0 :: rest =>
      match cmpLoop init.uploadId init.partSizeBytes att 0 rest [] r0 (some us0) with
      | none => none
      | some lr =>
        some ⟨resetUploadStateModel,
          [RCall.initiate file.name file.size, RCall.batchReq init.uploadId []]
            ++ lr.calls ++ [RCall.completeReq init.uploadId lr.allETags],
          lr.sizeUpdates, lr.waves, lr.allETags, fileUrlOf lr.allETags⟩

/-- Embedding of `ModulesComponent.resumeUpload` (upload.service.ts,
lines 470-475): clear the pause flag, then — if a file is selected —
run `uploadFile` again from the top. -/
def resumeUploadModel (st : CmpState) (init : InitResp) (script : List BatchResp)
    (att : Nat → Nat → Nat → Option String)
    (fileUrlOf : List Receipt → String) : Option RunResult :=
  let st' : CmpState := { st with isPaused := false }
  match st'.selectedFile with
  | some f => cmpUploadFile st' f init script att fileUrlOf
  | none => none

/-- Embedding of the wave loop of `UploadService.uploadFile`
(upload.service.ts, lines 112-138), entered after the initial
`getNextBatchUrls(uploadId, [])` returned `prog`:
`prevBatchETags = currentBatchETags` overwrites the previous wave's
receipts each iteration, and the loop exits when the freshly fetched
response reports `isComplete`.  `ub w` stands for the
`this.uploadBatch` outcome of wave `w`.  Returns the final value of
`prevBatchETags` (the argument later passed to `completeUpload`)
together with each wave's receipts. -/
def svcLoop (ub : Nat → List PresignedPart → List Receipt) :
    Nat → List BatchResp → BatchResp → Option (List Receipt × List (List Receipt))
  | w, script, prog =>
    let cur := ub w prog.presignedUrls
    match script with
    | [] => none
    | r1 :: rest =>
      if r1.progress.isComplete then some (cur, [cur])
      else
        match svcLoop ub (w + 1) rest r1 with
        | none => none
        | some (arg, ws) => some (arg, cur :: ws)

/-- Embedding of `UploadService.uploadFile` (upload.service.ts, lines
89-158), success path after initiation: run the wave loop and call
`completeUpload(uploadId, prevBatchETags)`, returning the remote's
`fileUrl`.  Returns (fileUrl, the receipts passed to `completeUpload`,
each wave's receipts). -/
def svcUploadFile (ub : Nat → List PresignedPart → List Receipt)
    (script : List BatchResp) (fileUrlOf : List Receipt → String) :
    Option (String × List Receipt × List (List Receipt)) :=
  match script with
  | [] => none
  | r0 :: rest =>
    match svcLoop ub 0 rest r0 with
    | none => none
    | some (arg, ws) => some (fileUrlOf arg, arg, ws)

/-- Embedding of `ModulesComponent.abortUpload` (upload.service.ts,
lines 477-488): when `uploadState?.uploadId` is truthy (present and a
nonempty string), issue one abort request, logging success or failure;
then reset local state unconditionally.  `abortCallFails` is the
outcome of the abort request itself.  Returns (new state, remote calls
issued, console log lines). -/
def abortUploadModel (st : CmpState) (abortCallFails : Bool) :
    CmpState × List RCall × List String :=
  match st.uploadState with
  | some us =>
    match us.uploadId with
    | some id =>
      if id = "" then (resetUploadStateModel, [], [])
      else
        (resetUploadStateModel, [RCall.abortReq id],
          [if abortCallFails then "Failed to abort upload:"
           else "Upload aborted successfully"])
    | none => (resetUploadStateModel, [], [])
  | none => (resetUploadStateModel, [], [])

/-- C9: from any state with an active session id, `abortUpload` issues
exactly one abort request and resets every local field to its initial
value, whether the abort request fails or succeeds. -/
theorem abortUpload_spec (st : CmpState) (us : USModel) (id : String)
    (abortCallFails : Bool) (hus : st.uploadState = some us)
    (hid : us.uploadId = some id) (hne : id ≠ "") :
    (abortUploadModel st abortCallFails).2.1 = [RCall.abortReq id]
    ∧ (abortUploadModel st abortCallFails).1
        = { uploading := false, progress := 0, errorMessage := none,
            isPaused := false, selectedFile := none, uploadState := none }
    ∧ (abortUploadModel st true).1 = (abortUploadModel st false).1 := by
  simp only [abortUploadModel, hus, hid, if_neg hne, resetUploadStateModel]
  simp

/-- Witness for C9 at a concrete uploading state with session `"u-1"`. -/
theorem abortUpload_spec_witness :
    (abortUploadModel
      { uploading := true, progress := 40, errorMessage := none, isPaused := true,
        selectedFile := some ⟨"v.mp4", 30, "video/mp4"⟩,
        uploadState := some ⟨some "u-1", "v.mp4", 30, 10, "0 KB", "Calculating..."⟩ }
      true).2.1 = [RCall.abortReq "u-1"] :=
  (abortUpload_spec _ _ "u-1" true rfl rfl (by decide)).1

/-- Running the retry loop with `maxRetries = 3` tries attempts 0, 1, 2
in order and stops at the first success; one backoff of
`min(1000·2^k, 10000)` ms precedes each retry `k ∈ {1, 2}`. -/
theorem attemptPart_run (att : Nat → Option String) :
    attemptPart att 3 0 =
      match att 0 with
      | some e => (some e, 1, [])
      | none =>
        match att 1 with
        | some e => (some e, 2, [2000])
        | none =>
          match att 2 with
          | some e => (some e, 3, [2000, 4000])
          | none => (none, 3, [2000, 4000]) := by
  cases h0 : att 0 <;> cases h1 : att 1 <;> cases h2 : att 2 <;>
    simp [attemptPart, h0, h1, h2]

/-- The per-part runs reported by a batch: one per presigned URL, in
order, and each is exactly the outcome of that part's retry loop. -/
theorem cmpUploadBatch_runs (psz : Nat) (att : Nat → Nat → Option String)
    (urls : List PresignedPart) (cnt : Nat) (us : Option USModel) :
    (cmpUploadBatch psz att urls cnt us).2.1
      = urls.map (fun pp =>
          PartRun.mk pp.partNumber (attemptPart (att pp.partNumber) 3 0).1
            (attemptPart (att pp.partNumber) 3 0).2.1
            (attemptPart (att pp.partNumber) 3 0).2.2) := by
  induction urls generalizing cnt us with
  | nil => rfl
  | cons pp rest ih =>
    cases h : (attemptPart (att pp.partNumber) 3 0).1 with
    | some e =>
      cases us with
      | some st => simp [cmpUploadBatch, h, ih]
      | none => simp [cmpUploadBatch, h, ih]
    | none => simp [cmpUploadBatch, h, ih]

/-- The receipts returned by a batch: one per part whose retry loop
succeeded, in part order, carrying the obtained etag. -/
theorem cmpUploadBatch_etags (psz : Nat) (att : Nat → Nat → Option String)
    (urls : List PresignedPart) (cnt : Nat) (us : Option USModel) :
    (cmpUploadBatch psz att urls cnt us).1
      = urls.filterMap (fun pp =>
          (attemptPart (att pp.partNumber) 3 0).1.map
            (fun e => Receipt.mk pp.partNumber e)) := by
  induction urls generalizing cnt us with
  | nil => rfl
  | cons pp rest ih =>
    cases h : (attemptPart (att pp.partNumber) 3 0).1 with
    | some e =>
      cases us with
      | some st => simp [cmpUploadBatch, h, ih]
      | none => simp [cmpUploadBatch, h, ih]
    | none => simp [cmpUploadBatch, h, ih]

/-- A part number not offered in the batch gets no receipt from it. -/
theorem cmpUploadBatch_countP_notmem (psz : Nat) (att : Nat → Nat → Option String)
    (urls : List PresignedPart) (cnt : Nat) (us : Option USModel) (n : Nat)
    (h : n ∉ urls.map (fun pp => pp.partNumber)) :
    ((cmpUploadBatch psz att urls cnt us).1.countP
      (fun r => r.partNumber == n)) = 0 := by
  rw [cmpUploadBatch_etags]
  induction urls with
  | nil => rfl
  | cons pp rest ih =>
    simp only [List.map_cons, List.mem_cons, not_or] at h
    have h1 : pp.partNumber ≠ n := fun hh => h.1 hh.symm
    rw [List.filterMap_cons]
    cases ha : (attemptPart (att pp.partNumber) 3 0).1 with
    | some e =>
      simp only [Option.map_some', List.countP_cons]
      have hb : ((Receipt.mk pp.partNumber e).partNumber == n) = false :=
        beq_eq_false_iff_ne.mpr h1
      rw [hb]
      simpa using ih h.2
    | none =>
      simp only [Option.map_none']
      exact ih h.2

/-- With distinct part numbers in the wave, a part contributes exactly
one receipt when some attempt succeeded and none otherwise. -/
theorem cmpUploadBatch_countP (psz : Nat) (att : Nat → Nat → Option String)
    (urls : List PresignedPart) (cnt : Nat) (us : Option USModel)
    (pp : PresignedPart)
    (hnd : (urls.map (fun q => q.partNumber)).Nodup) (hmem : pp ∈ urls) :
    ((cmpUploadBatch psz att urls cnt us).1.countP
      (fun r => r.partNumber == pp.partNumber))
      = if (attemptPart (att pp.partNumber) 3 0).1.isSome then 1 else 0 := by
  induction urls generalizing cnt us with
  | nil => cases hmem
  | cons q rest ih =>
    simp only [List.map_cons, List.nodup_cons] at hnd
    rcases List.mem_cons.mp hmem with heq | hrest
    · subst heq
      rw [cmpUploadBatch_etags, List.filterMap_cons]
      have hrest0 : (rest.filterMap (fun pp =>
          (attemptPart (att pp.partNumber) 3 0).1.map
            (fun e => Receipt.mk pp.partNumber e))).countP
          (fun r => r.partNumber == pp.partNumber) = 0 := by
        have hnm := cmpUploadBatch_countP_notmem psz att rest cnt us pp.partNumber hnd.1
        rwa [cmpUploadBatch_etags] at hnm
      cases ha : (attemptPart (att pp.partNumber) 3 0).1 with
      | some e =>
        simp only [Option.map_some', List.countP_cons, hrest0, Option.isSome_some,
          if_true, beq_self_eq_true]
      | none =>
        simp only [Option.map_none', Option.isSome_none, Bool.false_eq_true, if_false]
        exact hrest0
    · have hq : q.partNumber ≠ pp.partNumber := by
        intro hbad
        exact hnd.1 (hbad ▸ (List.mem_map.mpr ⟨pp, hrest, rfl⟩))
      rw [cmpUploadBatch_etags, List.filterMap_cons]
      have ihr := ih cnt us hnd.2 hrest
      rw [cmpUploadBatch_etags] at ihr
      cases ha : (attemptPart (att q.partNumber) 3 0).1 with
      | some e =>
        simp only [Option.map_some', List.countP_cons]
        have hb : ((Receipt.mk q.partNumber e).partNumber == pp.partNumber) = false :=
          beq_eq_false_iff_ne.mpr hq
        rw [hb]
        simpa using ihr
      | none =>
        simp only [Option.map_none']
        exact ihr

/-- Receipt count plus exhausted-part count equals the number of
requested parts. -/
theorem cmpUploadBatch_length (psz : Nat) (att : Nat → Nat → Option String)
    (urls : List PresignedPart) (cnt : Nat) (us : Option USModel) :
    (cmpUploadBatch psz att urls cnt us).1.length
      + ((cmpUploadBatch psz att urls cnt us).2.1.filter
          (fun r => r.result.isNone)).length
      = urls.length := by
  rw [cmpUploadBatch_etags, cmpUploadBatch_runs]
  induction urls with
  | nil => rfl
  | cons pp rest ih =>
    rw [List.filterMap_cons, List.map_cons, List.filter_cons]
    cases ha : (attemptPart (att pp.partNumber) 3 0).1 with
    | some e =>
      simp only [Option.map_some', List.length_cons, Option.isNone_some,
        Bool.false_eq_true, if_false]
      omega
    | none =>
      simp only [Option.map_none', Option.isNone_none, if_true, List.length_cons]
      omega

/-- C4: in `ModulesComponent.uploadBatch` every part of a wave is
attempted at most 3 times, the first attempt immediate and each retry
`k ∈ {1, 2}` preceded by a `min(1000·2^k, 10000)` ms backoff; a part
that fails twice and succeeds on the third attempt contributes exactly
one receipt, a part failing all three attempts contributes none, and
the batch returns `requested - exhausted` receipts. -/
theorem uploadBatch_retry_spec (partSizeBytes : Nat) (att : Nat → Nat → Option String)
    (urls : List PresignedPart) (us : Option USModel)
    (hnd : (urls.map (fun q => q.partNumber)).Nodup) :
    (cmpUploadBatch partSizeBytes att urls 0 us).2.1.length = urls.length
    ∧ (∀ run ∈ (cmpUploadBatch partSizeBytes att urls 0 us).2.1,
        run.attemptsMade ≤ 3
        ∧ run.delays = (List.range (run.attemptsMade - 1)).map
            (fun k => min (1000 * 2 ^ (k + 1)) 10000))
    ∧ (∀ pp ∈ urls, att pp.partNumber 0 = none → att pp.partNumber 1 = none →
        (∀ e, att pp.partNumber 2 = some e →
          ((cmpUploadBatch partSizeBytes att urls 0 us).1.countP
            (fun r => r.partNumber == pp.partNumber)) = 1)
        ∧ (att pp.partNumber 2 = none →
          ((cmpUploadBatch partSizeBytes att urls 0 us).1.countP
            (fun r => r.partNumber == pp.partNumber)) = 0))
    ∧ (cmpUploadBatch partSizeBytes att urls 0 us).1.length
        = urls.length
          - ((cmpUploadBatch partSizeBytes att urls 0 us).2.1.filter
              (fun r => r.result.isNone)).length := by
  refine ⟨?_, ?_, ?_, ?_⟩
  · rw [cmpUploadBatch_runs]
    simp
  · intro run hrun
    rw [cmpUploadBatch_runs] at hrun
    rcases List.mem_map.mp hrun with ⟨pp, _, rfl⟩
    have h := attemptPart_run (att pp.partNumber)
    cases h0 : att pp.partNumber 0 <;> cases h1 : att pp.partNumber 1 <;>
        cases h2 : att pp.partNumber 2 <;>
      simp only [h0, h1, h2] at h <;> rw [h] <;>
      exact ⟨by norm_num, by norm_num [List.range_succ]⟩
  · intro pp hmem h0 h1
    have hc := cmpUploadBatch_countP partSizeBytes att urls 0 us pp hnd hmem
    constructor
    · intro e h2
      have h := attemptPart_run (att pp.partNumber)
      simp only [h0, h1, h2] at h
      rw [hc, h]
      simp
    · intro h2
      have h := attemptPart_run (att pp.partNumber)
      simp only [h0, h1, h2] at h
      rw [hc, h]
      simp
  · have h := cmpUploadBatch_length partSizeBytes att urls 0 us
    omega

/-- Witness for C4: part 1 fails twice then succeeds, part 2 exhausts
all three attempts; the batch returns 1 = 2 - 1 receipts. -/
theorem uploadBatch_retry_spec_witness :
    ((cmpUploadBatch 10
        (fun p k => if p = 1 && k = 2 then some "e1" else none)
        [⟨1, "u1"⟩, ⟨2, "u2"⟩] 0 none).1.countP
      (fun r => r.partNumber == (1 : Nat))) = 1 :=
  ((uploadBatch_retry_spec 10
      (fun p k => if p = 1 && k = 2 then some "e1" else none)
      [⟨1, "u1"⟩, ⟨2, "u2"⟩] none (by decide)).2.2.1
    ⟨1, "u1"⟩ (by simp) (by decide) (by decide)).1 "e1" (by decide)

/-- `getLast?` of a cons with nonempty tail is `getLast?` of the tail. -/
theorem getLast?_cons_of_ne_nil {α : Type} (a : α) (l : List α) (h : l ≠ []) :
    (a :: l).getLast? = l.getLast? := by
  cases l with
  | nil => exact absurd rfl h
  | cons b t => exact List.getLast?_cons_cons

/-- The component loop's cumulative `allUploadedETags` is the initial
accumulator followed by every wave's receipts in order. -/
theorem cmpLoop_allETags (uid : String) (psz : Nat)
    (att : Nat → Nat → Nat → Option String) (script : List BatchResp) :
    ∀ (w : Nat) (all : List Receipt) (prog : BatchResp) (us : Option USModel)
      (lr : LoopResult), cmpLoop uid psz att w script all prog us = some lr →
      lr.allETags = all ++ lr.waves.flatten := by
  induction script with
  | nil =>
    intro w all prog us lr h
    simp [cmpLoop] at h
  | cons r1 rest ih =>
    intro w all prog us lr h
    simp only [cmpLoop] at h
    by_cases hc : r1.progress.isComplete
    · rw [if_pos hc] at h
      obtain rfl := Option.some.inj h
      simp
    · rw [if_neg hc] at h
      cases hl : cmpLoop uid psz att (w + 1) rest
          (all ++ (cmpUploadBatch psz (att w) prog.presignedUrls 0 us).1) r1
          (cmpUploadBatch psz (att w) prog.presignedUrls 0 us).2.2.2 with
      | none => rw [hl] at h; cases h
      | some lr' =>
        rw [hl] at h
        obtain rfl := Option.some.inj h
        have hrec := ih (w + 1)
          (all ++ (cmpUploadBatch psz (att w) prog.presignedUrls 0 us).1) r1
          (cmpUploadBatch psz (att w) prog.presignedUrls 0 us).2.2.2 lr' hl
        simp [hrec]

/-- The service loop's `prevBatchETags`, at loop exit, is exactly the
final wave's receipts. -/
theorem svcLoop_last (ub : Nat → List PresignedPart → List Receipt)
    (script : List BatchResp) :
    ∀ (w : Nat) (prog : BatchResp) (arg : List Receipt) (ws : List (List Receipt)),
      svcLoop ub w script prog = some (arg, ws) →
      ws ≠ [] ∧ ws.getLast? = some arg := by
  induction script with
  | nil =>
    intro w prog arg ws h
    simp [svcLoop] at h
  | cons r1 rest ih =>
    intro w prog arg ws h
    simp only [svcLoop] at h
    by_cases hc : r1.progress.isComplete
    · rw [if_pos hc] at h
      obtain ⟨rfl, rfl⟩ := Prod.mk.injEq .. ▸ Option.some.inj h
      exact ⟨by simp, rfl⟩
    · rw [if_neg hc] at h
      cases hl : svcLoop ub (w + 1) rest r1 with
      | none => rw [hl] at h; cases h
      | some p =>
        rw [hl] at h
        obtain ⟨harg, hws⟩ := Prod.mk.injEq .. ▸ Option.some.inj h
        have hrec := ih (w + 1) r1 p.1 p.2 (by rw [hl])
        subst harg
        subst hws
        refine ⟨by simp, ?_⟩
        rw [getLast?_cons_of_ne_nil _ _ hrec.1]
        exact hrec.2

/-- C1 amended: on completion, `ModulesComponent.uploadFile` calls
`completeUpload` with exactly the full accumulated receipt set — the
concatenation of every wave's confirmed receipts — and then resets
local state (it does not return the `fileUrl`); `UploadService.uploadFile`
returns the resulting `fileUrl` but passes `completeUpload` only the
final wave's receipts (`prevBatchETags` is overwritten each wave). -/
theorem completeUpload_receipts_spec
    (st : CmpState) (file : FileModel) (init : InitResp) (script : List BatchResp)
    (att : Nat → Nat → Nat → Option String) (fileUrlOf : List Receipt → String)
    (rr : RunResult) (hrun : cmpUploadFile st file init script att fileUrlOf = some rr)
    (ub : Nat → List PresignedPart → List Receipt) (scriptS : List BatchResp)
    (out : String × List Receipt × List (List Receipt))
    (hsvc : svcUploadFile ub scriptS fileUrlOf = some out) :
    rr.completeArg = rr.waves.flatten
    ∧ rr.calls.getLast? = some (RCall.completeReq init.uploadId rr.waves.flatten)
    ∧ rr.finalState = resetUploadStateModel
    ∧ rr.fileUrl = fileUrlOf rr.waves.flatten
    ∧ out.2.2 ≠ []
    ∧ out.2.2.getLast? = some out.2.1
    ∧ out.1 = fileUrlOf out.2.1 := by
  have hcomp : rr.completeArg = rr.waves.flatten
      ∧ rr.calls.getLast? = some (RCall.completeReq init.uploadId rr.waves.flatten)
      ∧ rr.finalState = resetUploadStateModel
      ∧ rr.fileUrl = fileUrlOf rr.waves.flatten := by
    unfold cmpUploadFile at hrun
    by_cases hp : st.isPaused
    · rw [if_pos hp] at hrun
      cases hrun
    · rw [if_neg hp] at hrun
      cases script with
      | nil => cases hrun
      | cons r0 rest =>
        simp only at hrun
        cases hl : cmpLoop init.uploadId init.partSizeBytes att 0 rest []
            r0 (some (match st.uploadState with
              | some s => { s with uploadId := some init.uploadId }
              | none => { uploadId := some init.uploadId, fileName := file.name,
                          fileSize := file.size, uploadedSize := 0, speed := "0 KB",
                          timeRemaining := "Calculating..." })) with
        | none => rw [hl] at hrun; cases hrun
        | some lr =>
          rw [hl] at hrun
          obtain rfl := Option.some.inj hrun
          have hall := cmpLoop_allETags init.uploadId init.partSizeBytes att rest
            0 [] r0 _ lr hl
          simp only [List.nil_append] at hall
          refine ⟨hall, ?_, rfl, by rw [hall]⟩
          show ([RCall.initiate file.name file.size, RCall.batchReq init.uploadId []]
              ++ lr.calls ++ [RCall.completeReq init.uploadId lr.allETags]).getLast?
            = some (RCall.completeReq init.uploadId lr.waves.flatten)
          rw [List.getLast?_concat, hall]
  have hsvcp : out.2.2 ≠ [] ∧ out.2.2.getLast? = some out.2.1
      ∧ out.1 = fileUrlOf out.2.1 := by
    unfold svcUploadFile at hsvc
    cases scriptS with
    | nil => cases hsvc
    | cons r0 rest =>
      simp only at hsvc
      cases hl : svcLoop ub 0 rest r0 with
      | none => rw [hl] at hsvc; cases hsvc
      | some p =>
        rw [hl] at hsvc
        obtain rfl := Option.some.inj hsvc
        have hlast := svcLoop_last ub rest 0 r0 p.1 p.2 (by rw [hl])
        exact ⟨hlast.1, hlast.2, rfl⟩
  exact ⟨hcomp.1, hcomp.2.1, hcomp.2.2.1, hcomp.2.2.2, hsvcp.1, hsvcp.2.1, hsvcp.2.2⟩

/-- Counterexample for C1: a two-wave `UploadService.uploadFile` run in
which wave 1 confirms part 1 and wave 2 confirms part 2 calls
`completeUpload` with `[{2, e2}]` only — not the full confirmed set
`[{1, e1}, {2, e2}]` accumulated over all waves. -/
theorem completeUpload_receipts_cx :
    svcUploadFile
      (fun _ parts => parts.map fun pp =>
        Receipt.mk pp.partNumber (if pp.partNumber = 1 then "e1" else "e2"))
      [⟨⟨0, 2, 0, false⟩, [⟨1, "u1"⟩]⟩, ⟨⟨1, 2, 50, false⟩, [⟨2, "u2"⟩]⟩,
        ⟨⟨2, 2, 100, true⟩, []⟩]
      (fun _ => "https://f")
      = some ("https://f", [Receipt.mk 2 "e2"],
          [[Receipt.mk 1 "e1"], [Receipt.mk 2 "e2"]])
    ∧ [Receipt.mk 2 "e2"]
        ≠ ([[Receipt.mk 1 "e1"], [Receipt.mk 2 "e2"]] : List (List Receipt)).flatten :=
  ⟨rfl, by decide⟩

/-- Witness for the amended C1: a one-wave component run whose
`completeUpload` argument is the flattened wave list. -/
theorem completeUpload_receipts_spec_witness :
    ([Receipt.mk 1 "e"] : List Receipt)
      = ([[Receipt.mk 1 "e"]] : List (List Receipt)).flatten :=
  (completeUpload_receipts_spec
    ⟨false, 0, none, false, some ⟨"v.mp4", 30, "video/mp4"⟩, none⟩
    ⟨"v.mp4", 30, "video/mp4"⟩ ⟨"s1", 10⟩
    [⟨⟨0, 3, 0, false⟩, [⟨1, "u1"⟩]⟩, ⟨⟨3, 3, 100, true⟩, []⟩]
    (fun _ _ _ => some "e") (fun _ => "https://f")
    ⟨resetUploadStateModel,
      [RCall.initiate "v.mp4" 30, RCall.batchReq "s1" [],
        RCall.putPart 1, RCall.batchReq "s1" [Receipt.mk 1 "e"],
        RCall.completeReq "s1" [Receipt.mk 1 "e"]],
      [10], [[Receipt.mk 1 "e"]], [Receipt.mk 1 "e"], "https://f"⟩
    rfl
    (fun _ parts => parts.map fun pp => Receipt.mk pp.partNumber "w")
    [⟨⟨0, 1, 0, false⟩, [⟨1, "u1"⟩]⟩, ⟨⟨1, 1, 100, true⟩, []⟩]
    ("https://f", [Receipt.mk 1 "w"], [[Receipt.mk 1 "w"]])
    (by decide)).1

/-- C3 (code bug): resuming a paused run — here a run under session
`"session1"` that had already confirmed part 1 with receipt
`{1, e1}` — re-runs `uploadFile` from the top: it issues a fresh
initiate (receiving the new session `"session2"`), sends its first wave
request with an EMPTY receipt list rather than the accumulated one, and
uploads part 1 again.  The old session id and the accumulated receipts
are never reused. -/
theorem resumeUpload_restarts_session :
    (resumeUploadModel
        { uploading := true, progress := 33, errorMessage := none, isPaused := true,
          selectedFile := some ⟨"v.mp4", 30, "video/mp4"⟩,
          uploadState := some ⟨some "session1", "v.mp4", 30, 10, "0 KB", "Calculating..."⟩ }
        ⟨"session2", 10⟩
        [⟨⟨0, 3, 0, false⟩, [⟨1, "u1"⟩, ⟨2, "u2"⟩, ⟨3, "u3"⟩]⟩,
          ⟨⟨3, 3, 100, true⟩, []⟩]
        (fun _ _ _ => some "e") (fun _ => "https://f")).map RunResult.calls
      = some [RCall.initiate "v.mp4" 30, RCall.batchReq "session2" [],
          RCall.putPart 1, RCall.putPart 2, RCall.putPart 3,
          RCall.batchReq "session2"
            [Receipt.mk 1 "e", Receipt.mk 2 "e", Receipt.mk 3 "e"],
          RCall.completeReq "session2"
            [Receipt.mk 1 "e", Receipt.mk 2 "e", Receipt.mk 3 "e"]]
    ∧ RCall.batchReq "session1" [Receipt.mk 1 "e1"]
        ∉ [RCall.initiate "v.mp4" 30, RCall.batchReq "session2" [],
          RCall.putPart 1, RCall.putPart 2, RCall.putPart 3,
          RCall.batchReq "session2"
            [Receipt.mk 1 "e", Receipt.mk 2 "e", Receipt.mk 3 "e"],
          RCall.completeReq "session2"
            [Receipt.mk 1 "e", Receipt.mk 2 "e", Receipt.mk 3 "e"]]
    ∧ RCall.putPart 1
        ∈ [RCall.initiate "v.mp4" 30, RCall.batchReq "session2" [],
          RCall.putPart 1, RCall.putPart 2, RCall.putPart 3,
          RCall.batchReq "session2"
            [Receipt.mk 1 "e", Receipt.mk 2 "e", Receipt.mk 3 "e"],
          RCall.completeReq "session2"
            [Receipt.mk 1 "e", Receipt.mk 2 "e", Receipt.mk 3 "e"]] :=
  ⟨by decide, by decide, by decide⟩

/-- C6 (code bug): in a run with `fileSize = 30`, `partSize = 10`, where
wave 1 confirms parts 1 and 2 and wave 2 confirms part 3, the
successive values assigned to `uploadState.uploadedSize` are
`[10, 20, 10]` — the per-wave receipt counter resets, so `uploadedSize`
decreases from 20 to 10 when the second wave's first part lands,
violating monotonicity within one run. -/
theorem uploadedSize_not_monotone :
    (cmpUploadFile
        { uploading := false, progress := 0, errorMessage := none, isPaused := false,
          selectedFile := some ⟨"v.mp4", 30, "video/mp4"⟩, uploadState := none }
        ⟨"v.mp4", 30, "video/mp4"⟩ ⟨"s6", 10⟩
        [⟨⟨0, 3, 0, false⟩, [⟨1, "u1"⟩, ⟨2, "u2"⟩]⟩,
          ⟨⟨2, 3, 67, false⟩, [⟨3, "u3"⟩]⟩,
          ⟨⟨3, 3, 100, true⟩, []⟩]
        (fun _ _ _ => some "e") (fun _ => "https://f")).map RunResult.sizeUpdates
      = some [10, 20, 10]
    ∧ ([10, 20, 10] : List Nat)[1]? = some 20
    ∧ ([10, 20, 10] : List Nat)[2]? = some 10
    ∧ ¬ (20 : Nat) ≤ 10 :=
  ⟨by decide, by decide, by decide, by decide⟩
